import Mathlib

/-!
Verification of the ingredient-line normalization engine of
`src/module/scraper_recipe.py` (the CalorieCaculationApp repository).

The Python functions `_vulgar_to_float`, `_preextract_weight_grams`,
`_parse_quantity`, `_canonicalize_name`, `_density_for`,
`_inch_to_g_for_item`, `_convert_to_grams` and `_normalize_ingredient_line`
are shallowly embedded as executable Lean functions over `List Char`
(Python `str`) and `ℚ` (Python `float`; the constants of the module are
exact decimals, so rational arithmetic reproduces the intended values;
`round(x, 2)` is modelled by `round2` below).

The small regular expressions of the module are translated into explicit
character-level matchers.  Each matcher mirrors its regex's semantics:
alternatives are tried in the regex's order, the leftmost match wins
(`searchFirst` scans start positions left to right), and where the regex
engine would backtrack between alternatives of a group the matcher tries
the same candidate list in the same order.  `\w`, `\s` and `\b` are
modelled over their ASCII meaning, which covers every character class the
module's inputs exercise.

Arithmetic note: `Rat.add`/`Rat.mul` are `@[irreducible]` in Batteries, so
the embedding uses `qadd`/`qmul` (defined through `mkRat`, which the kernel
evaluates); `qadd_eq`/`qmul_eq` relate them to `+`/`*`.
-/

set_option maxRecDepth 3000

/-! ## Rational helpers -/

/-- Multiplication on `ℚ` through `mkRat`, so that the kernel can evaluate it. -/
def qmul (a b : ℚ) : ℚ := mkRat (a.num * b.num) (a.den * b.den)

/-- Addition on `ℚ` through `mkRat`, so that the kernel can evaluate it. -/
def qadd (a b : ℚ) : ℚ := mkRat (a.num * (b.den : ℤ) + b.num * (a.den : ℤ)) (a.den * b.den)

/-- Python's `round(x, 2)`: round to two decimal places.  (CPython rounds
half-to-even on binary floats; no value of this development sits on a tie,
so rounding half up at the second decimal agrees with it everywhere it is
evaluated.) -/
def round2 (q : ℚ) : ℚ := mkRat (qadd (qmul q (mkRat 100 1)) (mkRat 1 2)).floor 100

/-! ## Character classes (ASCII models of Python's `\s`, `\w`, `str.lower`) -/

/-- Python `\s` (the ASCII whitespace characters). -/
def isWs (c : Char) : Bool :=
  c = ' ' || c = '\t' || c = '\n' || c = '\x0d' || c = '\x0b' || c = '\x0c'

/-- Regex `\w` (ASCII): letters, digits, underscore. -/
def isWordChar (c : Char) : Bool := c.isAlpha || c.isDigit || c = '_'

/-- A regex `\b` sitting between a previous character (word-ness `prevW`;
`false` at the start of the string) and the rest of the input. -/
def boundaryAt (prevW : Bool) (l : List Char) : Bool :=
  prevW != (match l with | c :: _ => isWordChar c | [] => false)

/-- A regex `\b` right after a match that ended in a word character. -/
def wordBoundaryAfter (l : List Char) : Bool :=
  match l with | c :: _ => !isWordChar c | [] => true

/-! ## Python string primitives on `List Char` -/

/-- Python `str.strip()`. -/
def pyStrip (l : List Char) : List Char :=
  ((l.dropWhile isWs).reverse.dropWhile isWs).reverse

/-- Python `str.lstrip()`. -/
def pyLStrip (l : List Char) : List Char := l.dropWhile isWs

/-- Python `s.split(",", 1)[0]`: the text before the first comma (the whole
string when there is none). -/
def takeUntilComma (l : List Char) : List Char := l.takeWhile (fun c => c ≠ ',')

/-- Python `str.lower()` (ASCII lowering; identity beyond ASCII, as
`str.lower` is on every character this module manipulates). -/
def toLowerList (l : List Char) : List Char := l.map Char.toLower

/-- Whether `pat` occurs in `l` (Python `pat in s`). -/
def containsSub (pat : List Char) : List Char → Bool
  | [] => pat.isEmpty
  | c :: r => pat.isPrefixOf (c :: r) || containsSub pat r

/-- Python `s.replace(pat, rep)` (all non-overlapping occurrences, left to
right), with fuel for structural recursion; `replaceAll` supplies the fuel. -/
def replaceAllF (pat rep : List Char) : Nat → List Char → List Char
  | 0, l => l
  | _ + 1, [] => []
  | f + 1, c :: r =>
    if pat ≠ [] ∧ pat.isPrefixOf (c :: r) then
      rep ++ replaceAllF pat rep f (List.drop pat.length (c :: r))
    else c :: replaceAllF pat rep f r

/-- Python `s.replace(pat, rep)`. -/
def replaceAll (pat rep l : List Char) : List Char := replaceAllF pat rep l.length l

/-- Python `str.split()` / filtered `re.split(r"\s+", s)`: maximal
whitespace-free words, in order.  `acc` is the current word, reversed. -/
def splitWsAux : List Char → List Char → List (List Char)
  | [], acc => if acc.isEmpty then [] else [acc.reverse]
  | c :: r, acc =>
    if isWs c then
      if acc.isEmpty then splitWsAux r [] else acc.reverse :: splitWsAux r []
    else splitWsAux r (c :: acc)

/-- Python `str.split()`. -/
def pySplitWs (l : List Char) : List (List Char) := splitWsAux l []

/-- Python `" ".join(words)`. -/
def joinWs (ws : List (List Char)) : List Char := List.intercalate [' '] ws

/-- Collapse every whitespace run into one space: `re.sub(r"\s+", " ", s)`. -/
def collapseWsAux : Bool → List Char → List Char
  | _, [] => []
  | prevWs, c :: r =>
    if isWs c then
      if prevWs then collapseWsAux true r else ' ' :: collapseWsAux true r
    else c :: collapseWsAux false r

/-- Collapse whitespace runs (`re.sub(r"\s+", " ", s)`). -/
def collapseWs (l : List Char) : List Char := collapseWsAux false l

/-- The first start position (left to right) where `f` matches: the model of
`re.search` given a matcher `f` for a single start position. -/
def searchFirst {β : Type} (f : List Char → Option β) : List Char → Option β
  | [] => f []
  | c :: r =>
    match f (c :: r) with
    | some b => some b
    | none => searchFirst f r

/-- The first element of `xs` on which `f` succeeds: regex alternation in
candidate order. -/
def firstSome {α β : Type} (f : α → Option β) : List α → Option β
  | [] => none
  | a :: r =>
    match f a with
    | some b => some b
    | none => firstSome f r

/-- Case-sensitive literal-prefix match returning the rest. -/
def prefixDrop : List Char → List Char → Option (List Char)
  | [], l => some l
  | _ :: _, [] => none
  | p :: ps, c :: cs => if c = p then prefixDrop ps cs else none

/-- Case-insensitive literal-prefix match (the pattern is lowercase),
modelling `re.I` on a literal alternative. -/
def ciPrefixDrop : List Char → List Char → Option (List Char)
  | [], l => some l
  | _ :: _, [] => none
  | p :: ps, c :: cs => if c.toLower = p then ciPrefixDrop ps cs else none

/-- Digit run to a natural number. -/
def digitsToNat (l : List Char) : ℕ := l.foldl (fun a c => a * 10 + (c.toNat - 48)) 0

/-- Value of a regex-matched decimal token `\d+(?:\.\d+)?` (split at the dot). -/
def decTokenVal (tok : List Char) : ℚ :=
  let d := tok.takeWhile Char.isDigit
  let rest := tok.dropWhile Char.isDigit
  match rest with
  | '.' :: f => mkRat (digitsToNat d * 10 ^ f.length + digitsToNat f : ℕ) (10 ^ f.length)
  | _ => mkRat (digitsToNat d : ℕ) 1

/-! ## Units and knowledge tables (`_VULGAR`, `UNIT_SYNONYMS`, `MASS_PER_UNIT`) -/

/-- The `_VULGAR` table: unicode vulgar-fraction glyphs and their values. -/
def glyphVal : Char → Option ℚ
  | '¼' => some (mkRat 1 4)
  | '½' => some (mkRat 1 2)
  | '¾' => some (mkRat 3 4)
  | '⅓' => some (mkRat 1 3)
  | '⅔' => some (mkRat 2 3)
  | '⅛' => some (mkRat 1 8)
  | '⅜' => some (mkRat 3 8)
  | '⅝' => some (mkRat 5 8)
  | '⅞' => some (mkRat 7 8)
  | _ => none

/-- Whether a character is one of the `_VULGAR` glyphs. -/
def isGlyph (c : Char) : Bool := (glyphVal c).isSome

/-- The `UNIT_SYNONYMS` dictionary: token (lowercased) to canonical unit tag. -/
def UNIT_SYNONYMS : String → Option String
  | "pound" | "pounds" | "lb" | "lbs" => some "lb"
  | "ounce" | "ounces" | "oz" => some "oz"
  | "gram" | "grams" | "g" => some "g"
  | "kilogram" | "kilograms" | "kg" => some "kg"
  | "cup" | "cups" => some "cup"
  | "tablespoon" | "tablespoons" | "tbsp" => some "tbsp"
  | "teaspoon" | "teaspoons" | "tsp" => some "tsp"
  | "liter" | "liters" | "l" => some "l"
  | "milliliter" | "milliliters" | "ml" => some "ml"
  | "each" | "ea" | "count" | "piece" | "pieces" | "clove" | "cloves" | "leaf"
  | "leaves" | "sprig" | "sprigs" | "slice" | "slices" => some "each"
  | _ => none

/-- Grams per pound (453.59237). -/
def LB_G : ℚ := mkRat 45359237 100000

/-- Grams per ounce (28.349523125). -/
def OZ_G : ℚ := mkRat 28349523125 1000000000

/-- Grams per fluid ounce in `_unit_to_g_simple` (29.5735). -/
def FLOZ_G : ℚ := mkRat 295735 10000

/-- The `MASS_PER_UNIT` dictionary. -/
def MASS_PER_UNIT : String → Option ℚ
  | "lb" => some LB_G
  | "oz" => some OZ_G
  | "kg" => some (mkRat 1000 1)
  | "g" => some (mkRat 1 1)
  | "cup" => some (mkRat 240 1)
  | "tbsp" => some (mkRat 15 1)
  | "tsp" => some (mkRat 5 1)
  | "l" => some (mkRat 1000 1)
  | "ml" => some (mkRat 1 1)
  | _ => none

/-- `GINGER_G_PER_INCH = 5.5`. -/
def GINGER_G_PER_INCH : ℚ := mkRat 11 2

/-! ## `_vulgar_to_float` -/

/-- Python `float(t)` on the shapes its regex-matched callers can pass
(`\d+` or `\d+.\d+`); other shapes raise `ValueError` in Python and give
`none` here. -/
def pyFloat (t : List Char) : Option ℚ :=
  let d := t.takeWhile Char.isDigit
  if d.isEmpty then none
  else
    match t.dropWhile Char.isDigit with
    | [] => some (mkRat (digitsToNat d : ℕ) 1)
    | '.' :: f =>
      if f ≠ [] ∧ f.all Char.isDigit then
        some (mkRat (digitsToNat d * 10 ^ f.length + digitsToNat f : ℕ) (10 ^ f.length))
      else none
    | _ => none

/-- A fullmatch of `\d+\s*/\s*\d+` on `t`: the numerator and denominator runs. -/
def fracFullmatch (t : List Char) : Option (List Char × List Char) :=
  let n := t.takeWhile Char.isDigit
  if n.isEmpty then none
  else
    let r := t.dropWhile Char.isDigit
    match r.dropWhile isWs with
    | '/' :: r2 =>
      let r3 := r2.dropWhile isWs
      let d := r3.takeWhile Char.isDigit
      if d.isEmpty then none
      else if (r3.dropWhile Char.isDigit).isEmpty then some (n, d) else none
    | _ => none

/-- `_vulgar_to_float`: a vulgar-fraction glyph, a simple fraction `a/b`
(zero denominator gives `none`), or a decimal; `none` for anything else. -/
def vulgar_to_float (token : List Char) : Option ℚ :=
  let t := pyStrip token
  match t with
  | [c] =>
    match glyphVal c with
    | some v => some v
    | none => fracOrFloat t
  | _ => fracOrFloat t
where
  fracOrFloat (t : List Char) : Option ℚ :=
    match fracFullmatch t with
    | some (n, d) =>
      if digitsToNat d = 0 then none
      else some (mkRat (digitsToNat n : ℕ) (digitsToNat d))
    | none => pyFloat t

/-! ## `_preextract_weight_grams` and its regexes -/

/-- Candidate matches of `\d+(?:\.\d+)?` at the start of `l`, in the order a
regex engine backtracks them: with the optional decimal part first, then
without. -/
def decCands (l : List Char) : List (List Char × List Char) :=
  let d := l.takeWhile Char.isDigit
  if d.isEmpty then []
  else
    let r := l.dropWhile Char.isDigit
    (match r with
     | '.' :: r2 =>
       let f := r2.takeWhile Char.isDigit
       if f.isEmpty then [] else [(d ++ '.' :: f, r2.dropWhile Char.isDigit)]
     | _ => []) ++ [(d, r)]

/-- Candidate matches of `_WEIGHT_UNITS = pounds?|lbs?|oz|ounces?|kg|g|fl\s*oz`
at the start of `l`, as (matched text, rest), in the regex's alternation
order (a greedy `s?` tries the plural first). -/
def weightUnitCands (l : List Char) : List (List Char × List Char) :=
  let lit := fun (w : String) =>
    match prefixDrop w.data l with
    | some r => [(w.data, r)]
    | none => []
  let floz :=
    match prefixDrop ([ 'f', 'l' ]) l with
    | some r =>
      let w := r.takeWhile isWs
      match prefixDrop ([ 'o', 'z' ]) (r.drop w.length) with
      | some r2 => [([ 'f', 'l' ] ++ w ++ [ 'o', 'z' ], r2)]
      | none => []
    | none => []
  lit "pounds" ++ lit "pound" ++ lit "lbs" ++ lit "lb" ++ lit "oz" ++ lit "ounces" ++
    lit "ounce" ++ lit "kg" ++ lit "g" ++ floz

/-- `_unit_to_g_simple`: grams for one of the pre-scan's weight-unit spellings
(the text is lowercased and its spaces removed before the comparison). -/
def unit_to_g_simple (amount : ℚ) (unit : List Char) : ℚ :=
  let u := (toLowerList unit).filter (fun c => c ≠ ' ')
  if u = "lb".data ∨ u = "lbs".data ∨ u = "pound".data ∨ u = "pounds".data then
    qmul amount LB_G
  else if u = "oz".data ∨ u = "ounce".data ∨ u = "ounces".data then qmul amount OZ_G
  else if u = "kg".data then qmul amount (mkRat 1000 1)
  else if u = "g".data then amount
  else if u = "floz".data then qmul amount FLOZ_G
  else 0

/-- A match of `_PACK_RE` at the start of `l`:
`(?P<count>\d+(?:\.\d+)?)\s*[x×]\s*(?P<amt>\d+(?:\.\d+)?)\s*(?P<u>WEIGHT)`. -/
def packAt (l : List Char) : Option (ℚ × ℚ × List Char) :=
  firstSome
    (fun cnt =>
      match (cnt.2.dropWhile isWs) with
      | c :: r2 =>
        if c = 'x' ∨ c = '×' then
          firstSome
            (fun amt =>
              match weightUnitCands (amt.2.dropWhile isWs) with
              | [] => none
              | (u, _) :: _ => some (decTokenVal cnt.1, decTokenVal amt.1, u))
            (decCands (r2.dropWhile isWs))
        else none
      | [] => none)
    (decCands l)

/-- A match of `_PAREN_RE` at the start of `l`:
`\(\s*(?P<amt>\d+(?:\.\d+)?)\s*(?P<u>WEIGHT)\s*\)`. -/
def parenWeightAt (l : List Char) : Option (ℚ × List Char) :=
  match l with
  | c :: r =>
    if c = '(' then
      firstSome
        (fun amt =>
          firstSome
            (fun u =>
              match u.2.dropWhile isWs with
              | ')' :: _ => some (decTokenVal amt.1, u.1)
              | _ => none)
            (weightUnitCands (amt.2.dropWhile isWs)))
        (decCands (r.dropWhile isWs))
    else none
  | [] => none

/-- A match of `_HYPHEN_RE` at the start of `l`:
`(?P<amt>\d+(?:\.\d+)?)\s*-\s*(?P<u>WEIGHT)\b`. -/
def hyphenAt (l : List Char) : Option (ℚ × List Char) :=
  firstSome
    (fun amt =>
      match amt.2.dropWhile isWs with
      | '-' :: r2 =>
        firstSome
          (fun u => if wordBoundaryAfter u.2 then some (decTokenVal amt.1, u.1) else none)
          (weightUnitCands (r2.dropWhile isWs))
      | _ => none)
    (decCands l)

/-- The leading count `re.match(r"^\s*(\d+(?:\.\d+)?)\b", s)` (regex
backtracking drops the decimal part when the word boundary after it fails;
the boundary then always holds before the dot). -/
def leadCount (l : List Char) : Option ℚ :=
  let r := l.dropWhile isWs
  let d := r.takeWhile Char.isDigit
  if d.isEmpty then none
  else
    let r2 := r.dropWhile Char.isDigit
    match r2 with
    | '.' :: r3 =>
      let f := r3.takeWhile Char.isDigit
      if f.isEmpty then if wordBoundaryAfter r2 then some (decTokenVal d) else none
      else if wordBoundaryAfter (r3.dropWhile Char.isDigit) then
        some (decTokenVal (d ++ '.' :: f))
      else some (decTokenVal d)
    | _ => if wordBoundaryAfter r2 then some (decTokenVal d) else none

/-- `_preextract_weight_grams`: pre-scan of the whole (lowercased) line for
`2 x 16 oz`, `(8 pound)` and `8-pound` shapes; the parenthesis and hyphen
shapes are multiplied by the line's leading count when one exists.  Returns
the grams when a shape yields a positive value, else 0. -/
def preextract_weight_grams (line : List Char) : ℚ :=
  let s := toLowerList line
  let packG : ℚ :=
    match searchFirst packAt s with
    | some m => qmul (unit_to_g_simple m.2.1 m.2.2) m.1
    | none => 0
  if 0 < packG then packG
  else
    let parenG : ℚ :=
      match searchFirst parenWeightAt s with
      | some m =>
        match leadCount s with
        | some c => qmul (unit_to_g_simple m.1 m.2) c
        | none => unit_to_g_simple m.1 m.2
      | none => 0
    if 0 < parenG then parenG
    else
      let hyG : ℚ :=
        match searchFirst hyphenAt s with
        | some m =>
          match leadCount s with
          | some c => qmul (unit_to_g_simple m.1 m.2) c
          | none => unit_to_g_simple m.1 m.2
        | none => 0
      if 0 < hyG then hyG else 0

/-! ## `_parse_quantity` -/

/-- The unit alternation of the parenthetical package-spec pattern of
`_parse_quantity`, in the regex's order. -/
def PAREN_UNITS : List String :=
  ["ounce", "ounces", "oz", "pound", "pounds", "lb", "lbs", "g", "kg", "cup", "cups",
    "tbsp", "tablespoon", "tsp", "teaspoon", "inch", "in", "cm"]

/-- Candidate matches of the package-spec numeral
`(\d+(?:\.\d+)?|\d+\s*/\s*\d+|[¼½¾⅓⅔⅛⅜⅝⅞])` at the start of `l`, in
backtracking order: decimal (with, then without, its fractional part),
then `a/b`, then a vulgar glyph. -/
def parenNumCands (l : List Char) : List (List Char × List Char) :=
  let frac :=
    let d := l.takeWhile Char.isDigit
    if d.isEmpty then []
    else
      let r := l.dropWhile Char.isDigit
      let w1 := r.takeWhile isWs
      match r.drop w1.length with
      | '/' :: r2 =>
        let w2 := r2.takeWhile isWs
        let d2 := (r2.drop w2.length).takeWhile Char.isDigit
        if d2.isEmpty then []
        else [(d ++ w1 ++ '/' :: (w2 ++ d2), (r2.drop w2.length).dropWhile Char.isDigit)]
      | _ => []
  let glyph :=
    match l with
    | c :: r => if isGlyph c then [([c], r)] else []
    | [] => []
  decCands l ++ frac ++ glyph

/-- A match of the package-spec pattern
`\(\s*(NUM)\s*(ounce|…|cm)\s*\)` (case-insensitive) at the start of `l`:
the numeral token, the unit (already the lowercase spelling `group(2).lower()`
produces), and the rest after the closing parenthesis. -/
def parenAt (l : List Char) : Option (List Char × String × List Char) :=
  match l with
  | c :: r =>
    if c = '(' then
      firstSome
        (fun cand =>
          firstSome
            (fun u =>
              match ciPrefixDrop u.data (cand.2.dropWhile isWs) with
              | some r3 =>
                match r3.dropWhile isWs with
                | ')' :: r4 => some (cand.1, u, r4)
                | _ => none
              | none => none)
            PAREN_UNITS)
        (parenNumCands (r.dropWhile isWs))
    else none
  | [] => none

/-- Characters the leading-junk class `[\s\-–—•]` accepts. -/
def isLeadJunk (c : Char) : Bool := isWs c || c = '-' || c = '–' || c = '—' || c = '•'

/-- The anchored package-spec match (`lead_paren` in `_parse_quantity`):
junk characters, then the parenthetical. -/
def lead_paren (s : List Char) : Option (List Char × String × List Char) :=
  parenAt (s.dropWhile isLeadJunk)

/-- The any-position package-spec search (`any_paren`): the characters
before the match and the match itself. -/
def any_paren : List Char → Option (List Char × (List Char × String × List Char))
  | [] => none
  | c :: r =>
    match parenAt (c :: r) with
    | some m => some ([], m)
    | none =>
      match any_paren r with
      | some pm => some (c :: pm.1, pm.2)
      | none => none

/-- Step one of `_parse_quantity`: extract the parenthetical package spec.
Anchored match first (its span is removed from the front); otherwise an
any-position search (its span is replaced by one space and the result
stripped). -/
def parenStep (s : List Char) : Option ℚ × Option String × List Char :=
  match lead_paren s with
  | some m => (vulgar_to_float m.1, some m.2.1, pyLStrip m.2.2)
  | none =>
    match any_paren s with
    | some pm => (vulgar_to_float pm.2.1, some pm.2.2.1, pyStrip (pm.1 ++ ' ' :: pm.2.2.2))
    | none => (none, none, s)

/-- A match of `^(\d+(?:\.\d+)?)\s+(\d+\s*/\s*\d+)\b` (mixed number, numeric
fraction): its value `float(g1) + (_vulgar_to_float(g2) or 0.0)` and the rest. -/
def matchMixNumeric (l : List Char) : Option (ℚ × List Char) :=
  let d := l.takeWhile Char.isDigit
  if d.isEmpty then none
  else
    let r := l.dropWhile Char.isDigit
    let numTok : List Char × List Char :=
      match r with
      | '.' :: r2 =>
        let f := r2.takeWhile Char.isDigit
        if f.isEmpty then (d, r) else (d ++ '.' :: f, r2.dropWhile Char.isDigit)
      | _ => (d, r)
    let w := numTok.2.takeWhile isWs
    if w.isEmpty then none
    else
      let r2 := numTok.2.drop w.length
      let d2 := r2.takeWhile Char.isDigit
      if d2.isEmpty then none
      else
        let r3 := r2.dropWhile Char.isDigit
        let w2 := r3.takeWhile isWs
        match r3.drop w2.length with
        | '/' :: r4 =>
          let w3 := r4.takeWhile isWs
          let d3 := (r4.drop w3.length).takeWhile Char.isDigit
          if d3.isEmpty then none
          else
            let r5 := (r4.drop w3.length).dropWhile Char.isDigit
            if wordBoundaryAfter r5 then
              some (qadd (decTokenVal numTok.1)
                ((vulgar_to_float (d2 ++ w2 ++ '/' :: (w3 ++ d3))).getD 0), r5)
            else none
        | _ => none

/-- A match of `^(\d+(?:\.\d+)?)\s*([¼½¾⅓⅔⅛⅜⅝⅞])` (mixed number, vulgar
glyph): its value and the rest. -/
def matchMixVulgar (l : List Char) : Option (ℚ × List Char) :=
  let d := l.takeWhile Char.isDigit
  if d.isEmpty then none
  else
    let r := l.dropWhile Char.isDigit
    let numTok : List Char × List Char :=
      match r with
      | '.' :: r2 =>
        let f := r2.takeWhile Char.isDigit
        if f.isEmpty then (d, r) else (d ++ '.' :: f, r2.dropWhile Char.isDigit)
      | _ => (d, r)
    match numTok.2.dropWhile isWs with
    | c :: rest =>
      if isGlyph c then some (qadd (decTokenVal numTok.1) ((glyphVal c).getD 0), rest)
      else none
    | [] => none

/-- A match of `^([¼½¾⅓⅔⅛⅜⅝⅞]|\d+(?:\.\d+)?)` (single numeral): the value
`_vulgar_to_float(group(1))` and the rest. -/
def matchSingle (l : List Char) : Option (Option ℚ × List Char) :=
  match l with
  | c :: r =>
    if isGlyph c then some (vulgar_to_float [c], r)
    else
      let d := l.takeWhile Char.isDigit
      if d.isEmpty then none
      else
        match l.dropWhile Char.isDigit with
        | '.' :: r2 =>
          let f := r2.takeWhile Char.isDigit
          if f.isEmpty then some (vulgar_to_float d, '.' :: r2)
          else some (vulgar_to_float (d ++ '.' :: f), r2.dropWhile Char.isDigit)
        | r1 => some (vulgar_to_float d, r1)
  | [] => none

/-- Step two of `_parse_quantity`: the leading quantity (mixed numeric, then
mixed vulgar, then single; the text after a successful match is
left-stripped, otherwise the text is unchanged). -/
def qtyStep (s : List Char) : Option ℚ × List Char :=
  match matchMixNumeric s with
  | some m => (some m.1, pyLStrip m.2)
  | none =>
    match matchMixVulgar s with
    | some m => (some m.1, pyLStrip m.2)
    | none =>
      match matchSingle s with
      | some m => (m.1, pyLStrip m.2)
      | none => (none, s)

/-- Step three of `_parse_quantity`: the unit token.  The first word is
looked up in `UNIT_SYNONYMS`; when it fails and a second word exists, that
one is looked up — a hit there consumes both words.  On any hit the
remainder is the space-join of the unconsumed words; otherwise the text is
unchanged. -/
def unitStep (s : List Char) : Option String × List Char :=
  match pySplitWs s with
  | [] => (none, s)
  | p0 :: rest =>
    match UNIT_SYNONYMS (String.mk (toLowerList p0)) with
    | some u => (some u, joinWs rest)
    | none =>
      match rest with
      | [] => (none, s)
      | p1 :: rest2 =>
        match UNIT_SYNONYMS (String.mk (toLowerList p1)) with
        | some u => (some u, joinWs rest2)
        | none => (none, s)

/-- The result of `_parse_quantity`. -/
structure ParsedQuantity where
  qty : Option ℚ
  unit : Option String
  rem : List Char
  pqty : Option ℚ
  punit : Option String
deriving DecidableEq

/-- `_parse_quantity`: strip, truncate at the first comma, extract the
package spec, the leading quantity and the unit token; what remains
(stripped) is the name remainder. -/
def parse_quantity (text : List Char) : ParsedQuantity :=
  let s0 := pyStrip (takeUntilComma (pyStrip text))
  let p := parenStep s0
  let q := qtyStep p.2.2
  let u := unitStep q.2
  { qty := q.1, unit := u.1, rem := pyStrip u.2, pqty := p.1, punit := p.2.1 }

/-! ## `_canonicalize_name` -/

/-- `re.sub(r"\([^)]*\)", " ", n)` with fuel: every parenthesis pair (up to
the first closing one) becomes one space; an unclosed `(` stays. -/
def subParensF : Nat → List Char → List Char
  | 0, l => l
  | _ + 1, [] => []
  | f + 1, c :: r =>
    if c = '(' then
      match r.dropWhile (fun x => x ≠ ')') with
      | _ :: r2 => ' ' :: subParensF f r2
      | [] => c :: subParensF f r
    else c :: subParensF f r

/-- `re.sub(r"\([^)]*\)", " ", n)`. -/
def subParens (l : List Char) : List Char := subParensF l.length l

/-- One left-to-right pass of `re.sub` for a word-bounded alternation:
`tryAt` gives the length of a match starting at the current position (the
alternation's own order and its trailing `\b` live inside `tryAt`); the
leading `\b` holds when the previous character is not a word character.
Every match becomes one space. -/
def subBoundedF (tryAt : List Char → Option Nat) : Nat → Bool → List Char → List Char
  | 0, _, l => l
  | _ + 1, _, [] => []
  | f + 1, prevW, c :: r =>
    if !prevW then
      match tryAt (c :: r) with
      | some k => ' ' :: subBoundedF tryAt f true (List.drop (k - 1) r)
      | none => c :: subBoundedF tryAt f (isWordChar c) r
    else c :: subBoundedF tryAt f (isWordChar c) r

/-- `re.sub` of a word-bounded alternation by one space. -/
def subBounded (tryAt : List Char → Option Nat) (l : List Char) : List Char :=
  subBoundedF tryAt l.length false l

/-- A literal alternative followed by `\b`: the matched length. -/
def litLen (w : String) (l : List Char) : Option Nat :=
  match prefixDrop w.data l with
  | some r => if wordBoundaryAfter r then some w.data.length else none
  | none => none

/-- The size/freshness alternation
`extra\s+large|large|small|medium|fresh|prepared|unsalted|salted` (each
alternative capped by `\b`), tried in the regex's order. -/
def tryAdjAt (l : List Char) : Option Nat :=
  let extra : Option Nat :=
    match prefixDrop ("extra".data) l with
    | some r =>
      let w := r.takeWhile isWs
      if w.isEmpty then none
      else
        match prefixDrop ("large".data) (r.drop w.length) with
        | some r2 => if wordBoundaryAfter r2 then some (5 + w.length + 5) else none
        | none => none
    | none => none
  match extra with
  | some k => some k
  | none =>
    firstSome (fun w => litLen w l)
      ["large", "small", "medium", "fresh", "prepared", "unsalted", "salted"]

/-- The `pieces?` alternation capped by `\b` (greedy `s?`: plural first). -/
def tryPiecesAt (l : List Char) : Option Nat :=
  match litLen "pieces" l with
  | some k => some k
  | none => litLen "piece" l

/-- The flags `_canonicalize_name` accumulates. -/
structure OptFlags where
  optional : Bool := false
  to_taste : Bool := false
  approx : Bool := false
  skip_for_kcal : Bool := false
deriving DecidableEq

/-- Which flag an `OPTIONAL_PATTERNS` phrase sets. -/
inductive OptKey
  | optionalK
  | toTasteK
  | approxK
deriving DecidableEq

/-- The `OPTIONAL_PATTERNS` list, in the source's order. -/
def OPTIONAL_PATTERNS : List (String × OptKey) :=
  [("optional", .optionalK), ("to taste", .toTasteK), ("as needed", .toTasteK),
    ("as required", .toTasteK), ("for garnish", .approxK), ("for serving", .approxK),
    ("for sprinkling", .approxK), ("for frying", .approxK), ("for brushing", .approxK)]

/-- The phrase-marker loop of `_canonicalize_name`: each phrase found in the
text sets its flag (`optional` and `to_taste` also set `skip_for_kcal`) and
every occurrence of the phrase is replaced by one space. -/
def applyOptPatterns : List (String × OptKey) → OptFlags → List Char → OptFlags × List Char
  | [], fl, n => (fl, n)
  | (ph, k) :: rest, fl, n =>
    if containsSub ph.data n then
      let fl1 :=
        match k with
        | .optionalK => { fl with optional := true, skip_for_kcal := true }
        | .toTasteK => { fl with to_taste := true, skip_for_kcal := true }
        | .approxK => { fl with approx := true }
      applyOptPatterns rest fl1 (replaceAll ph.data [' '] n)
    else applyOptPatterns rest fl n

/-- The `PREP_WORDS` set. -/
def PREP_WORDS : List String :=
  ["chopped", "diced", "minced", "sliced", "crushed", "ground", "grated", "shredded",
    "beaten", "peeled", "seeded", "deveined", "rinsed", "drained", "softened", "melted",
    "cubed", "halved", "julienned", "thinly", "thickly", "coarsely", "finely"]

/-- Split the tokens into (preparation words, kept words), keeping order. -/
def splitPrep : List (List Char) → List (List Char) × List (List Char)
  | [] => ([], [])
  | t :: rest =>
    let p := splitPrep rest
    if PREP_WORDS.any (fun w => w.data = t) then (t :: p.1, p.2) else (p.1, t :: p.2)

/-- The `SYNONYM_CANONICAL` alias dictionary. -/
def SYNONYM_CANONICAL : String → Option String
  | "scallions" | "scallion" | "spring onions" | "spring onion" | "green onions" =>
    some "green onion"
  | "extra-virgin olive oil" | "extra virgin olive oil" => some "olive oil"
  | "brown sugar" => some "brown sugar"
  | _ => none

/-- The result of `_canonicalize_name`. -/
structure CanonResult where
  canonical : List Char
  cleaned : List Char
  optional : Bool
  to_taste : Bool
  approx : Bool
  skip_for_kcal : Bool
  prep : List Char
deriving DecidableEq

/-- `_canonicalize_name`: lower and strip, erase parentheticals, consume the
optional/approximate phrase markers, erase size/freshness adjectives and
`piece(s)`, separate preparation words from the kept name tokens, collapse
whitespace, and resolve the alias table. -/
def canonicalize_name (name : List Char) : CanonResult :=
  let n0 := pyStrip (toLowerList name)
  let n1 := subParens n0
  let fn := applyOptPatterns OPTIONAL_PATTERNS {} n1
  let n3 := subBounded tryAdjAt fn.2
  let n4 := subBounded tryPiecesAt n3
  let pk := splitPrep (pySplitWs n4)
  let n5 := collapseWs (pyStrip (joinWs pk.2))
  let canonical :=
    match SYNONYM_CANONICAL (String.mk n5) with
    | some c => c.data
    | none => n5
  { canonical := canonical, cleaned := n5, optional := fn.1.optional,
    to_taste := fn.1.to_taste, approx := fn.1.approx,
    skip_for_kcal := fn.1.skip_for_kcal, prep := joinWs pk.1 }

/-! ## `DENSITY_RULES` and `_density_for` -/

/-- Search for a pattern with `\b`-dependent steps: `f prevW suffix` decides
a match starting at the suffix, `prevW` is the word-ness of the previous
character. -/
def searchB (f : Bool → List Char → Bool) : Bool → List Char → Bool
  | prevW, [] => f prevW []
  | prevW, c :: r => f prevW (c :: r) || searchB f (isWordChar c) r

/-- A step of `\b((glutinous|sweet|sticky)\s+rice|rice(?!\s+vinegar))\b`. -/
def riceStep (prevW : Bool) (l : List Char) : Bool :=
  if prevW then false
  else
    let alt1 :=
      ["glutinous", "sweet", "sticky"].any fun w =>
        match ciPrefixDrop w.data l with
        | some r =>
          let ws := r.takeWhile isWs
          if ws.isEmpty then false
          else
            match ciPrefixDrop ("rice".data) (r.drop ws.length) with
            | some r2 => wordBoundaryAfter r2
            | none => false
        | none => false
    let alt2 :=
      match ciPrefixDrop ("rice".data) l with
      | some r2 =>
        let lookahead :=
          let ws := r2.takeWhile isWs
          if ws.isEmpty then false
          else (ciPrefixDrop ("vinegar".data) (r2.drop ws.length)).isSome
        !lookahead && wordBoundaryAfter r2
      | none => false
    alt1 || alt2

/-- `re.search` of the rice pattern. -/
def ricePatB (name : List Char) : Bool := searchB riceStep false name

/-- A step of `\b(olive|vegetable|canola|peanut|sesame)\s+oil\b|\boil\b`. -/
def oilStep (prevW : Bool) (l : List Char) : Bool :=
  if prevW then false
  else
    (["olive", "vegetable", "canola", "peanut", "sesame"].any fun w =>
      match ciPrefixDrop w.data l with
      | some r =>
        let ws := r.takeWhile isWs
        if ws.isEmpty then false
        else
          match ciPrefixDrop ("oil".data) (r.drop ws.length) with
          | some r2 => wordBoundaryAfter r2
          | none => false
      | none => false) ||
    (match ciPrefixDrop ("oil".data) l with
     | some r2 => wordBoundaryAfter r2
     | none => false)

/-- `re.search` of the oil pattern. -/
def oilPatB (name : List Char) : Bool := searchB oilStep false name

/-- A step of `\b(broth|stock)\b`. -/
def brothStep (prevW : Bool) (l : List Char) : Bool :=
  !prevW &&
    (["broth", "stock"].any fun w =>
      match ciPrefixDrop w.data l with
      | some r => wordBoundaryAfter r
      | none => false)

/-- `re.search` of the broth pattern. -/
def brothPatB (name : List Char) : Bool := searchB brothStep false name

/-- A step of `\b(light\s+)?brown\s+sugar\b` (the greedy optional `light`
first; either way the match needs word-bounded `brown sugar` next). -/
def brownStep (prevW : Bool) (l : List Char) : Bool :=
  if prevW then false
  else
    let core : List Char → Bool := fun l2 =>
      match ciPrefixDrop ("brown".data) l2 with
      | some r =>
        let ws := r.takeWhile isWs
        if ws.isEmpty then false
        else
          match ciPrefixDrop ("sugar".data) (r.drop ws.length) with
          | some r2 => wordBoundaryAfter r2
          | none => false
      | none => false
    (match ciPrefixDrop ("light".data) l with
     | some r =>
       let ws := r.takeWhile isWs
       if ws.isEmpty then false else core (r.drop ws.length)
     | none => false) ||
    core l

/-- `re.search` of the brown-sugar pattern. -/
def brownPatB (name : List Char) : Bool := searchB brownStep false name

/-- A step of `\b(granulated)?\s*sugar\b` (the `\b` may sit between a word
character and the whitespace `\s*` consumes, so it uses `boundaryAt`). -/
def sugarStep (prevW : Bool) (l : List Char) : Bool :=
  let tail : List Char → Bool := fun l2 =>
    match ciPrefixDrop ("sugar".data) (l2.dropWhile isWs) with
    | some r2 => wordBoundaryAfter r2
    | none => false
  boundaryAt prevW l &&
    ((match ciPrefixDrop ("granulated".data) l with
      | some r => tail r
      | none => false) ||
     tail l)

/-- `re.search` of the generic-sugar pattern. -/
def sugarPatB (name : List Char) : Bool := searchB sugarStep false name

/-- The grams map of the rice rule. -/
def riceDens : String → Option ℚ
  | "cup" => some (mkRat 185 1)
  | "tbsp" => some (mkRat 185 16)
  | "tsp" => some (mkRat 185 48)
  | _ => none

/-- The grams map of the oil rule. -/
def oilDens : String → Option ℚ
  | "cup" => some (mkRat 218 1)
  | "tbsp" => some (mkRat 218 16)
  | "tsp" => some (mkRat 218 48)
  | _ => none

/-- The grams map of the broth/stock rule. -/
def brothDens : String → Option ℚ
  | "cup" => some (mkRat 240 1)
  | "tbsp" => some (mkRat 15 1)
  | "tsp" => some (mkRat 5 1)
  | _ => none

/-- The grams map of the brown-sugar rule. -/
def brownDens : String → Option ℚ
  | "cup" => some (mkRat 220 1)
  | "tbsp" => some (mkRat 220 16)
  | "tsp" => some (mkRat 220 48)
  | _ => none

/-- The grams map of the generic-sugar rule. -/
def sugarDens : String → Option ℚ
  | "cup" => some (mkRat 200 1)
  | "tbsp" => some (mkRat 200 16)
  | "tsp" => some (mkRat 200 48)
  | _ => none

/-- `_density_for`: the `DENSITY_RULES` list evaluated top to bottom, the
first rule whose pattern matches the name supplying its per-unit map. -/
def density_for (name : List Char) (unit : String) : Option ℚ :=
  if ricePatB name then riceDens unit
  else if oilPatB name then oilDens unit
  else if brothPatB name then brothDens unit
  else if brownPatB name then brownDens unit
  else if sugarPatB name then sugarDens unit
  else none

/-! ## `_inch_to_g_for_item` and `_convert_to_grams` -/

/-- `_inch_to_g_for_item`: only ginger has a grams-per-inch heuristic. -/
def inch_to_g_for_item (name : List Char) (inches : ℚ) : Option ℚ :=
  if containsSub ("ginger".data) name then some (qmul inches GINGER_G_PER_INCH) else none

/-- `0.3937007874` inches per centimetre. -/
def CM_TO_INCH : ℚ := mkRat 3937007874 10000000000

/-- `_convert_to_grams`: an explicit `each` unit converts to nothing; a
parenthetical length spec (inch/in/cm) with a length-sensitive name is
tried next; then mass units, then volume units (density override, else the
water-equivalent constant); anything else has no weight estimate. -/
def convert_to_grams (qty : Option ℚ) (unit : Option String) (name : List Char)
    (pqty : Option ℚ) (punit : Option String) : Option ℚ :=
  if unit = some "each" then none
  else
    let inchCase : Option ℚ :=
      match pqty, punit with
      | some pq, some pu =>
        if pu = "inch" ∨ pu = "in" ∨ pu = "cm" then
          let inches := qmul pq (if pu = "cm" then CM_TO_INCH else 1)
          match inch_to_g_for_item name inches with
          | some per => some (qmul (qty.getD 1) per)
          | none => none
        else none
      | _, _ => none
    match inchCase with
    | some g => some g
    | none =>
      match qty, unit with
      | some q, some u =>
        if u = "lb" ∨ u = "oz" ∨ u = "kg" ∨ u = "g" then
          some (qmul q ((MASS_PER_UNIT u).getD 0))
        else if u = "cup" ∨ u = "tbsp" ∨ u = "tsp" ∨ u = "l" ∨ u = "ml" then
          some (qmul q ((density_for name u).getD ((MASS_PER_UNIT u).getD 0)))
        else none
      | _, _ => none

/-! ## `_normalize_ingredient_line` -/

/-- Decimal digits of a natural number (fueled division loop). -/
def natDigitsAux : Nat → Nat → List Char
  | 0, _ => []
  | _ + 1, 0 => []
  | f + 1, n => natDigitsAux f (n / 10) ++ [Char.ofNat (48 + n % 10)]

/-- Decimal rendering of a natural number. -/
def natToDec (n : ℕ) : List Char := if n = 0 then ['0'] else natDigitsAux (n + 1) n

/-- Python `str()` of a float holding an exact decimal (the only values the
pipeline stores in its metadata: parsed quantities and piece counts):
`3.0` for whole numbers, trailing zeros of the fractional part dropped.
A non-decimal rational (never produced on the claims' inputs) falls back to
a fraction rendering. -/
def pyFloatStr (q : ℚ) : List Char :=
  match (List.range 21).find? (fun k => 10 ^ k % q.den = 0) with
  | none => natToDec q.num.toNat ++ '/' :: natToDec q.den
  | some k =>
    if k = 0 then natToDec q.num.toNat ++ '.' :: ['0']
    else
      let scaled := q.num.toNat * (10 ^ k / q.den)
      let f := natToDec (scaled % 10 ^ k)
      let fpad := List.replicate (k - f.length) '0' ++ f
      let ftrim := (fpad.reverse.dropWhile (fun c => c = '0')).reverse
      natToDec (scaled / 10 ^ k) ++ '.' :: (if ftrim.isEmpty then ['0'] else ftrim)

/-- Python `f"{x:.2f}"` on the nonnegative grams value (two fixed decimals;
modelled with half-up rounding, see `round2`). -/
def fmt2 (q : ℚ) : List Char :=
  let n := (qadd (qmul q (mkRat 100 1)) (mkRat 1 2)).floor.toNat
  let f := natToDec (n % 100)
  natToDec (n / 100) ++ '.' :: (List.replicate (2 - f.length) '0' ++ f)

/-- The `Ingredient` dataclass (its `meta` dict as an ordered key/value list,
insertion order preserved as in a Python dict). -/
structure Ingredient where
  name : String
  canonical_name : String
  quantity_g : ℚ
  optional : Bool
  to_taste : Bool
  approx : Bool
  skip_for_kcal : Bool
  prep : String
  meta : List (String × String)
deriving DecidableEq

/-- Lookup in the ordered `meta` list (`dict.get`). -/
def metaLookup (k : String) : List (String × String) → Option String
  | [] => none
  | p :: r => if p.1 = k then some p.2 else metaLookup k r

/-- `original.split(",", 1)[0].strip()` of the stripped raw line: the text
`_normalize_ingredient_line` works on. -/
def beforeCommaOf (raw : List Char) : List Char := pyStrip (takeUntilComma (pyStrip raw))

/-- The pre-scanned grams of the line (step ① of the normalizer). -/
def preGramsOf (raw : List Char) : ℚ := preextract_weight_grams (beforeCommaOf raw)

/-- The parsed quantity/unit/package spec of the line. -/
def parsedOf (raw : List Char) : ParsedQuantity := parse_quantity (beforeCommaOf raw)

/-- The canonicalization of the line's name remainder. -/
def canonOf (raw : List Char) : CanonResult := canonicalize_name (parsedOf raw).rem

/-- `name_clean = cleaned_name.strip().lower()`. -/
def nameCleanOf (raw : List Char) : List Char := pyStrip (toLowerList (canonOf raw).cleaned)

/-- Steps ①–③ of the normalizer's grams decision: the pre-scanned grams when
positive; else the package spec (count × package quantity × the unit's
constant) when the package unit is a known synonym with a nonzero constant;
else `_convert_to_grams`. -/
def gramsOf (raw : List Char) : Option ℚ :=
  let p := parsedOf raw
  let g1 : Option ℚ := if 0 < preGramsOf raw then some (preGramsOf raw) else none
  let g2 : Option ℚ :=
    match g1 with
    | some g => some g
    | none =>
      match p.pqty, p.punit with
      | some pq, some pu =>
        match UNIT_SYNONYMS pu with
        | some cu =>
          match MASS_PER_UNIT cu with
          | some b => if b ≠ 0 then some (qmul (qmul (p.qty.getD 1) pq) b) else none
          | none => none
        | none => none
      | _, _ => none
  match g2 with
  | some g => some g
  | none => convert_to_grams p.qty p.unit (nameCleanOf raw) p.pqty p.punit

/-- `out_qty_g`: the grams, 0 when no rule produced any. -/
def outGramsOf (raw : List Char) : ℚ := (gramsOf raw).getD 0

/-- The each-flow guard:
`(unit == "each") or (grams is None and (qty is not None and unit is None))`. -/
def isEachOf (raw : List Char) : Bool :=
  ((parsedOf raw).unit == some "each") ||
    ((gramsOf raw).isNone && (parsedOf raw).qty.isSome && (parsedOf raw).unit.isNone)

/-- The metadata keys both branches write first, in insertion order. -/
def baseMetaOf (raw : List Char) : List (String × String) :=
  let p := parsedOf raw
  [("alias_raw", String.mk (pyStrip raw)),
    ("kept_before_comma", String.mk (beforeCommaOf raw)),
    ("quantity_parsed", match p.qty with | none => "" | some q => String.mk (pyFloatStr q)),
    ("unit_parsed", p.unit.getD ""),
    ("paren_quantity", match p.pqty with | none => "" | some q => String.mk (pyFloatStr q)),
    ("paren_unit", p.punit.getD ""),
    ("name_parsed", String.mk (nameCleanOf raw)),
    ("prep", String.mk (canonOf raw).prep)]

/-- The `why_zero` message of the non-each branch when no rule matched. -/
def NO_RULE_MSG : String := "no conversion rule matched (qty/unit missing or unsupported)"

/-- The `why_zero` message of the each branch. -/
def EACH_MSG : String := "unit=each (by design not converted to grams)"

/-- The each-flow `Ingredient`: no grams, the piece count (default 1.0)
recorded in the metadata. -/
def eachRecord (raw : List Char) : Ingredient :=
  let c := canonOf raw
  let piece := (parsedOf raw).qty.getD 1
  { name := String.mk (nameCleanOf raw)
    canonical_name := String.mk c.canonical
    quantity_g := 0
    optional := c.optional
    to_taste := c.to_taste
    approx := c.approx
    skip_for_kcal := c.skip_for_kcal
    prep := String.mk c.prep
    meta := baseMetaOf raw ++
      [("unit_canonical", "each"),
        ("each_count", String.mk (pyFloatStr piece)),
        ("display_qty", String.mk (pyFloatStr piece ++ ' ' :: "each".data)),
        ("why_zero", EACH_MSG)] }

/-- The non-each `Ingredient`: grams rounded to two decimals, a `why_zero`
entry whenever the computed grams are zero. -/
def gramRecord (raw : List Char) : Ingredient :=
  let c := canonOf raw
  let out := outGramsOf raw
  let whyZero : String := if (gramsOf raw).isNone then NO_RULE_MSG else ""
  let dq : String := if 0 < out then String.mk (fmt2 out ++ ' ' :: ['g']) else "0 g"
  let m1 := baseMetaOf raw ++ [("display_qty", dq)]
  { name := String.mk (nameCleanOf raw)
    canonical_name := String.mk c.canonical
    quantity_g := round2 out
    optional := c.optional
    to_taste := c.to_taste
    approx := c.approx
    skip_for_kcal := c.skip_for_kcal
    prep := String.mk c.prep
    meta :=
      if out = 0 then
        m1 ++ [("why_zero", if whyZero = "" then "grams computed as 0" else whyZero)]
      else m1 }

/-- `_normalize_ingredient_line`: `None` for an empty before-comma text or an
empty cleaned name; otherwise exactly one `Ingredient`, each-based or
gram-based. -/
def normalize_ingredient_line (raw : List Char) : Option Ingredient :=
  if beforeCommaOf raw = [] then none
  else if nameCleanOf raw = [] then none
  else if isEachOf raw then some (eachRecord raw)
  else some (gramRecord raw)

/-! ## Basic lemmas -/

theorem qmul_eq (a b : ℚ) : qmul a b = a * b := by
  rw [qmul, Rat.mkRat_eq_div]
  push_cast
  rw [← div_mul_div_comm, Rat.num_div_den, Rat.num_div_den]

theorem qadd_eq (a b : ℚ) : qadd a b = a + b := by
  have ha : ((a.den : ℚ)) ≠ 0 := by exact_mod_cast a.den_nz
  have hb : ((b.den : ℚ)) ≠ 0 := by exact_mod_cast b.den_nz
  rw [qadd, Rat.mkRat_eq_div]
  push_cast
  rw [mul_comm (b.num : ℚ) ((a.den : ℚ)), ← div_add_div _ _ ha hb, Rat.num_div_den,
    Rat.num_div_den]

theorem ws_cases {c : Char} (h : isWs c = true) :
    c = ' ' ∨ c = '\t' ∨ c = '\n' ∨ c = '\x0d' ∨ c = '\x0b' ∨ c = '\x0c' := by
  simpa [isWs, Bool.or_eq_true, decide_eq_true_eq, or_assoc] using h

theorem alpha_not_ws {c : Char} (h : c.isAlpha = true) : isWs c = false := by
  cases hw : isWs c with
  | false => rfl
  | true => rcases ws_cases hw with rfl | rfl | rfl | rfl | rfl | rfl <;> exact absurd h (by decide)

theorem alpha_ne {c x : Char} (h : c.isAlpha = true) (hx : x.isAlpha = false) : c ≠ x := by
  rintro rfl
  rw [h] at hx
  cases hx

theorem alpha_not_digit {c : Char} (h : c.isAlpha = true) : c.isDigit = false := by
  simp only [Char.isAlpha, Char.isUpper, Char.isLower, Char.isDigit, Bool.or_eq_true,
    Bool.and_eq_true, decide_eq_true_eq, ge_iff_le, UInt32.le_def, BitVec.le_def] at h ⊢
  simp only [Bool.and_eq_false_iff, decide_eq_false_iff_not, UInt32.le_def, BitVec.le_def]
  have e48 : ((48 : UInt32).toBitVec).toNat = 48 := by decide
  have e57 : ((57 : UInt32).toBitVec).toNat = 57 := by decide
  have e65 : ((65 : UInt32).toBitVec).toNat = 65 := by decide
  have e90 : ((90 : UInt32).toBitVec).toNat = 90 := by decide
  have e97 : ((97 : UInt32).toBitVec).toNat = 97 := by decide
  have e122 : ((122 : UInt32).toBitVec).toNat = 122 := by decide
  omega

theorem alpha_not_glyph {c : Char} (h : c.isAlpha = true) : isGlyph c = false := by
  rw [isGlyph, glyphVal.eq_def]
  split <;> first
    | rfl
    | exact absurd h (by decide)

theorem alpha_not_leadJunk {c : Char} (h : c.isAlpha = true) : isLeadJunk c = false := by
  cases hj : isLeadJunk c with
  | false => rfl
  | true =>
    rw [isLeadJunk] at hj
    simp only [Bool.or_eq_true, decide_eq_true_eq, or_assoc] at hj
    rcases hj with hw | rfl | rfl | rfl | rfl
    · rw [alpha_not_ws h] at hw
      cases hw
    all_goals exact absurd h (by decide)

theorem normalize_none_iff (raw : List Char) :
    normalize_ingredient_line raw = none ↔ nameCleanOf raw = [] := by
  rw [normalize_ingredient_line]
  by_cases h1 : beforeCommaOf raw = []
  · simp only [h1, if_pos rfl, true_iff]
    constructor
    · intro _
      rw [nameCleanOf, canonOf, parsedOf, h1]
      decide
    · intro _
      rfl
  · rw [if_neg h1]
    by_cases h2 : nameCleanOf raw = []
    · simp [h2]
    · cases hE : isEachOf raw <;> simp [h2, hE]

theorem normalize_some_cases (raw : List Char) (i : Ingredient)
    (hi : normalize_ingredient_line raw = some i) :
    (isEachOf raw = true ∧ i = eachRecord raw) ∨
    (isEachOf raw = false ∧ i = gramRecord raw) := by
  rw [normalize_ingredient_line] at hi
  split_ifs at hi with h1 h2 h3
  · exact Or.inl ⟨h3, (Option.some.inj hi).symm⟩
  · exact Or.inr ⟨Bool.not_eq_true _ ▸ h3, (Option.some.inj hi).symm⟩

theorem each_unit_canonical (raw : List Char) :
    metaLookup "unit_canonical" (eachRecord raw).meta = some "each" := by
  simp [eachRecord, baseMetaOf, metaLookup]

theorem gram_whyZero (raw : List Char) (h : outGramsOf raw = 0) :
    ∃ z, metaLookup "why_zero" (gramRecord raw).meta = some z ∧ z ≠ "" := by
  by_cases hn : (gramsOf raw).isNone = true
  · exact ⟨NO_RULE_MSG, by simp [gramRecord, baseMetaOf, metaLookup, h, hn, NO_RULE_MSG],
      by simp [NO_RULE_MSG]⟩
  · exact ⟨"grams computed as 0",
      by simp [gramRecord, baseMetaOf, metaLookup, h, hn], by simp⟩

/-! ## Claims -/

/-- C1: the line normalizer is a total function (no exception path is
modelled because none exists in the code): it yields exactly one ingredient
record precisely when the cleaned name is non-empty, and on a line carrying
no quantity information at all (no parsed quantity, no unit, no package
spec, nothing found by the pre-scan) the record's grams are zero with a
populated `why_zero` entry. -/
theorem spec_C1 (raw : List Char) :
    ((normalize_ingredient_line raw).isSome ↔ nameCleanOf raw ≠ []) ∧
    (∀ i, normalize_ingredient_line raw = some i →
      (parsedOf raw).qty = none → (parsedOf raw).unit = none →
      (parsedOf raw).pqty = none → preGramsOf raw = 0 →
      i.quantity_g = 0 ∧ ∃ z, metaLookup "why_zero" i.meta = some z ∧ z ≠ "") := by
  constructor
  · rw [Option.isSome_iff_ne_none, ne_eq, normalize_none_iff raw, ne_eq]
  · intro i hi hq hu hp hpre
    have hg : gramsOf raw = none := by
      simp [gramsOf, convert_to_grams, hq, hu, hp, hpre]
    have hout : outGramsOf raw = 0 := by simp [outGramsOf, hg]
    have heach : isEachOf raw = false := by simp [isEachOf, hq, hu, hg]
    rcases normalize_some_cases raw i hi with ⟨hE, _⟩ | ⟨_, hGr⟩
    · rw [heach] at hE
      cases hE
    · subst hGr
      refine ⟨?_, gram_whyZero raw hout⟩
      show (gramRecord raw).quantity_g = 0
      simp only [gramRecord, hout]
      decide

/-- Witness for C1 at the line `salt` (name present, no quantity/unit
information at all). -/
theorem spec_C1_witness :
    (normalize_ingredient_line ("salt".data)).isSome = true ∧
    ∃ i, normalize_ingredient_line ("salt".data) = some i ∧ i.quantity_g = 0 ∧
      ∃ z, metaLookup "why_zero" i.meta = some z ∧ z ≠ "" := by
  have h := spec_C1 ("salt".data)
  have h1 : (normalize_ingredient_line ("salt".data)).isSome = true :=
    h.1.mpr (by decide)
  obtain ⟨i, hi⟩ := Option.isSome_iff_exists.mp h1
  have h2 := h.2 i hi (by decide) (by decide) (by decide) (by decide)
  exact ⟨h1, i, hi, h2.1, h2.2⟩

/-- C2 amended: zero-reason bookkeeping is keyed to the grams value computed
before the final rounding — every non-each record whose computed grams are
zero carries a non-empty `why_zero`; rounding a positive sub-0.005 g amount
to a zero `quantity_g` does not populate it (see the counterexample). -/
theorem spec_C2 (raw : List Char) (i : Ingredient)
    (hi : normalize_ingredient_line raw = some i)
    (hne : metaLookup "unit_canonical" i.meta ≠ some "each")
    (h0 : outGramsOf raw = 0) :
    ∃ z, metaLookup "why_zero" i.meta = some z ∧ z ≠ "" := by
  rcases normalize_some_cases raw i hi with ⟨_, hEq⟩ | ⟨_, hEq⟩
  · subst hEq
    exact absurd (each_unit_canonical raw) hne
  · subst hEq
    exact gram_whyZero raw h0

/-- Witness for C2 at the line `salt`. -/
theorem spec_C2_witness :
    ∃ z, metaLookup "why_zero" (gramRecord ("salt".data)).meta = some z ∧ z ≠ "" := by
  have hi : normalize_ingredient_line ("salt".data) = some (gramRecord ("salt".data)) := by
    decide
  exact spec_C2 ("salt".data) (gramRecord ("salt".data)) hi (by decide) (by decide)

/-- Counterexample to C2 as stated: `0.001 gram flour` converts to 0.001 g,
which rounds to `quantity_g = 0`; the record is not each-based (no
`unit_canonical` entry) and carries no `why_zero` entry. -/
theorem spec_C2_counterexample :
    (normalize_ingredient_line ("0.001 gram flour".data)).map
      (fun i => (i.quantity_g, metaLookup "unit_canonical" i.meta,
        metaLookup "why_zero" i.meta)) = some (0, none, none) := by
  decide

/-- C3 amended: when the pre-scan finds a package weight (and the line's unit
is not each-like), the output grams are the rounded pre-scan value; the
pre-scan's outer count for the paren form is the line's leading plain
decimal numeral (default 1) — for scenario C,
`1 (8 pound) whole chicken` gives 1 × 8 × 453.59237 ≈ 3628.74. -/
theorem spec_C3 :
    (∀ raw i, normalize_ingredient_line raw = some i →
      (parsedOf raw).unit ≠ some "each" → 0 < preGramsOf raw →
      i.quantity_g = round2 (preGramsOf raw)) ∧
    preGramsOf ("1 (8 pound) whole chicken".data) = qmul (qmul (mkRat 1 1) (mkRat 8 1)) LB_G ∧
    (normalize_ingredient_line ("1 (8 pound) whole chicken".data)).map
      (fun i => i.quantity_g) = some (mkRat 362874 100) := by
  refine ⟨?_, by decide, by decide⟩
  intro raw i hi hu hpre
  have hg : gramsOf raw = some (preGramsOf raw) := by
    simp [gramsOf, hpre]
  have heach : isEachOf raw = false := by
    simp [isEachOf, hg, beq_iff_eq, hu]
  rcases normalize_some_cases raw i hi with ⟨hE, _⟩ | ⟨_, hEq⟩
  · rw [heach] at hE
    cases hE
  · subst hEq
    show (gramRecord raw).quantity_g = round2 (preGramsOf raw)
    simp [gramRecord, outGramsOf, hg]

/-- Witness for C3 at scenario C's line. -/
theorem spec_C3_witness :
    normalize_ingredient_line ("1 (8 pound) whole chicken".data) =
      some (gramRecord ("1 (8 pound) whole chicken".data)) ∧
    (gramRecord ("1 (8 pound) whole chicken".data)).quantity_g =
      round2 (preGramsOf ("1 (8 pound) whole chicken".data)) := by
  have hi : normalize_ingredient_line ("1 (8 pound) whole chicken".data) =
      some (gramRecord ("1 (8 pound) whole chicken".data)) := by decide
  exact ⟨hi, spec_C3.1 _ _ hi (by decide) (by decide)⟩

/-- Counterexample to C3 as stated: on `1 1/2 (8 pound) whole chicken` the
parsed outer quantity is 1.5, yet the grams are 1 × 8 × 453.59237 (the
pre-scan multiplies by the leading plain decimal `1`, not the mixed number),
not the claimed outer-count product 1.5 × 8 × 453.59237 ≈ 5443.11. -/
theorem spec_C3_counterexample :
    (parsedOf ("1 1/2 (8 pound) whole chicken".data)).qty = some (mkRat 3 2) ∧
    (parsedOf ("1 1/2 (8 pound) whole chicken".data)).punit = some "pound" ∧
    (normalize_ingredient_line ("1 1/2 (8 pound) whole chicken".data)).map
      (fun i => i.quantity_g) = some (mkRat 362874 100) ∧
    mkRat 362874 100 ≠ round2 (qmul (qmul (mkRat 3 2) (mkRat 8 1)) LB_G) := by
  decide

/-- C4: with a present quantity and a volume unit, when no density pattern
matches the name the converter returns quantity × the water-equivalent
constant of `MASS_PER_UNIT` (cup = 240 g, tbsp = 15 g, tsp = 5 g); in
particular `2 cups all-purpose flour` normalizes to 480 g. -/
theorem spec_C4 :
    (∀ (q : ℚ) (u : String) (name : List Char),
      (u = "cup" ∨ u = "tbsp" ∨ u = "tsp" ∨ u = "l" ∨ u = "ml") →
      ricePatB name = false → oilPatB name = false → brothPatB name = false →
      brownPatB name = false → sugarPatB name = false →
      convert_to_grams (some q) (some u) name none none =
        some (q * ((MASS_PER_UNIT u).getD 0))) ∧
    MASS_PER_UNIT "cup" = some (mkRat 240 1) ∧
    MASS_PER_UNIT "tbsp" = some (mkRat 15 1) ∧
    MASS_PER_UNIT "tsp" = some (mkRat 5 1) ∧
    (parsedOf ("2 cups all-purpose flour".data)).qty = some (mkRat 2 1) ∧
    (parsedOf ("2 cups all-purpose flour".data)).unit = some "cup" ∧
    (normalize_ingredient_line ("2 cups all-purpose flour".data)).map
      (fun i => i.quantity_g) = some (mkRat 480 1) := by
  refine ⟨?_, by decide, by decide, by decide, by decide, by decide, by decide⟩
  intro q u name hu h1 h2 h3 h4 h5
  have hd : density_for name u = none := by
    simp [density_for, h1, h2, h3, h4, h5]
  rcases hu with rfl | rfl | rfl | rfl | rfl <;>
    simp [convert_to_grams, hd, qmul_eq, MASS_PER_UNIT]

/-- Witness for C4 at quantity 2, unit cup, name `all-purpose flour`. -/
theorem spec_C4_witness :
    convert_to_grams (some (mkRat 2 1)) (some "cup") ("all-purpose flour".data) none none =
      some (mkRat 2 1 * ((MASS_PER_UNIT "cup").getD 0)) :=
  spec_C4.1 (mkRat 2 1) "cup" ("all-purpose flour".data) (Or.inl rfl)
    (by decide) (by decide) (by decide) (by decide) (by decide)

/-- C5 amended: `DENSITY_RULES` is evaluated top to bottom with the first
matching rule winning — a name matching the first rule's pattern always
resolves through it, and a name matching the word-bounded brown-sugar
pattern while matching none of the earlier rice/oil/broth patterns resolves
to 220 g/cup even when the generic sugar pattern also matches (as it does
for `brown sugar` itself); a name that additionally matches an earlier
rule resolves per that rule instead (see the counterexample). -/
theorem spec_C5 :
    (∀ (name : List Char) (u : String), ricePatB name = true →
      density_for name u = riceDens u) ∧
    (∀ name : List Char, ricePatB name = false → oilPatB name = false →
      brothPatB name = false → brownPatB name = true →
      density_for name "cup" = some (mkRat 220 1)) ∧
    (brownPatB ("brown sugar".data) = true ∧ sugarPatB ("brown sugar".data) = true ∧
      density_for ("brown sugar".data) "cup" = some (mkRat 220 1)) := by
  refine ⟨?_, ?_, by decide⟩
  · intro name u h
    simp [density_for, h]
  · intro name h1 h2 h3 h4
    simp [density_for, h1, h2, h3, h4, brownDens]

/-- Witness for C5's universal parts: `packed brown sugar` (rule four wins)
and `sticky rice` (rule one wins). -/
theorem spec_C5_witness :
    density_for ("packed brown sugar".data) "cup" = some (mkRat 220 1) ∧
    density_for ("sticky rice".data) "cup" = riceDens "cup" :=
  ⟨spec_C5.2.1 ("packed brown sugar".data) (by decide) (by decide) (by decide) (by decide),
    spec_C5.1 ("sticky rice".data) "cup" (by decide)⟩

/-- Counterexample to C5 as stated: `rice brown sugar` contains
`brown sugar`, but the rice pattern (an earlier rule) also matches, so cup
resolves to 185 g, not 220 g. -/
theorem spec_C5_counterexample :
    containsSub ("brown sugar".data) ("rice brown sugar".data) = true ∧
    brownPatB ("rice brown sugar".data) = true ∧
    density_for ("rice brown sugar".data) "cup" = some (mkRat 185 1) ∧
    (mkRat 185 1) ≠ (mkRat 220 1) := by
  decide

/-- C6 amended: `salt to taste` yields `to_taste = true`,
`skip_for_kcal = true` and zero grams, but its `why_zero` is the generic
no-conversion-rule message — the to-taste exemption is recorded in the
flags, not in the zero reason. -/
theorem spec_C6 :
    (normalize_ingredient_line ("salt to taste".data)).map
      (fun i => (i.to_taste, i.skip_for_kcal, i.quantity_g,
        metaLookup "why_zero" i.meta)) =
      some (true, true, 0, some NO_RULE_MSG) := by
  decide

/-- Counterexample to C6 as stated: the zero reason of `salt to taste` is
exactly the parse-failure message `no conversion rule matched (qty/unit
missing or unsupported)`, which does not mention the taste exemption. -/
theorem spec_C6_counterexample :
    (normalize_ingredient_line ("salt to taste".data)).map
      (fun i => metaLookup "why_zero" i.meta) = some (some NO_RULE_MSG) ∧
    containsSub ("taste".data) (NO_RULE_MSG.data) = false ∧
    containsSub ("to_taste".data) (NO_RULE_MSG.data) = false := by
  decide

/-- C7 amended: on `3 large eggs, beaten` the text after the comma is
discarded entirely (so `beaten` is never seen and the preparation is
empty), the quantity is 3 with no unit, `large` is stripped, and the
record is each-based with `each_count = 3.0`; the name stays the plural
`eggs` (the code performs no singularization). -/
theorem spec_C7 :
    beforeCommaOf ("3 large eggs, beaten".data) = "3 large eggs".data ∧
    (parsedOf ("3 large eggs, beaten".data)).qty = some (mkRat 3 1) ∧
    (parsedOf ("3 large eggs, beaten".data)).unit = none ∧
    (normalize_ingredient_line ("3 large eggs, beaten".data)).map
      (fun i => (i.name, i.canonical_name, i.prep, i.quantity_g)) =
      some ("eggs", "eggs", "", 0) ∧
    (normalize_ingredient_line ("3 large eggs, beaten".data)).map
      (fun i => (metaLookup "unit_canonical" i.meta, metaLookup "each_count" i.meta)) =
      some (some "each", some "3.0") := by
  refine ⟨by decide, by decide, by decide, by decide, by decide⟩

/-- Counterexample to C7 as stated: the record's name is `eggs`, not `egg`,
and its preparation is empty, not `beaten`. -/
theorem spec_C7_counterexample :
    (normalize_ingredient_line ("3 large eggs, beaten".data)).map
      (fun i => (i.name, i.prep)) = some ("eggs", "") ∧
    ("eggs" : String) ≠ "egg" ∧ ("" : String) ≠ "beaten" := by
  decide

/-- C8 amended: the parenthetical length rule (inch/in/cm package unit on an
ingredient whose name contains `ginger`) is applied before the mass and
volume conversions, but after the each shortcut: with any non-each unit the
converter returns outer quantity (default 1) × inches × 5.5 g/inch (cm
scaled by 0.3937007874), and `1 (2 inch) ginger` normalizes to 11 g; an
each-like unit suppresses the rule entirely (see the counterexample). -/
theorem spec_C8 :
    (∀ (qty : Option ℚ) (u : Option String) (name : List Char) (pq : ℚ) (pu : String),
      u ≠ some "each" → (pu = "inch" ∨ pu = "in" ∨ pu = "cm") →
      containsSub ("ginger".data) name = true →
      convert_to_grams qty u name (some pq) (some pu) =
        some (qty.getD 1 * (pq * (if pu = "cm" then CM_TO_INCH else 1) * GINGER_G_PER_INCH))) ∧
    (normalize_ingredient_line ("1 (2 inch) ginger".data)).map
      (fun i => i.quantity_g) = some (mkRat 11 1) := by
  refine ⟨?_, by decide⟩
  intro qty u name pq pu hu hpu hg
  rcases hpu with rfl | rfl | rfl <;>
    simp [convert_to_grams, hu, inch_to_g_for_item, hg, qmul_eq, mul_assoc]

/-- Witness for C8's universal part: a 2-inch ginger with quantity 1. -/
theorem spec_C8_witness :
    convert_to_grams (some (mkRat 1 1)) none ("ginger".data) (some (mkRat 2 1))
      (some "inch") =
      some ((some (mkRat 1 1)).getD 1 *
        (mkRat 2 1 * (if ("inch" : String) = "cm" then CM_TO_INCH else 1) *
          GINGER_G_PER_INCH)) :=
  spec_C8.1 (some (mkRat 1 1)) none ("ginger".data) (mkRat 2 1) "inch"
    (by decide) (Or.inl rfl) (by decide)

/-- Counterexample to C8 as stated: `2 pieces (3 inch) ginger` has an inch
package spec and a ginger name, but its unit is each-like, the each flow
wins, and the record carries 0 g instead of 2 × 3 × 5.5 = 33 g — the length
rule is not applied before the each handling. -/
theorem spec_C8_counterexample :
    (parsedOf ("2 pieces (3 inch) ginger".data)).punit = some "inch" ∧
    (parsedOf ("2 pieces (3 inch) ginger".data)).unit = some "each" ∧
    containsSub ("ginger".data) (nameCleanOf ("2 pieces (3 inch) ginger".data)) = true ∧
    (normalize_ingredient_line ("2 pieces (3 inch) ginger".data)).map
      (fun i => (i.quantity_g, metaLookup "unit_canonical" i.meta)) =
      some (0, some "each") ∧
    (0 : ℚ) ≠ qmul (qmul (mkRat 2 1) (mkRat 3 1)) GINGER_G_PER_INCH := by
  refine ⟨by decide, by decide, by decide, by decide, by decide⟩

theorem dropWhile_all_ws {l : List Char} (h : l.all isWs = true) :
    l.dropWhile isWs = [] := by
  induction l with
  | nil => rfl
  | cons c r ih =>
    simp only [List.all_cons, Bool.and_eq_true] at h
    rw [List.dropWhile_cons_of_pos (by simp [h.1])]
    exact ih h.2

theorem pyStrip_all_ws {l : List Char} (h : l.all isWs = true) : pyStrip l = [] := by
  rw [pyStrip, dropWhile_all_ws h]
  rfl

/-- C9 amended: a raw line is discarded exactly when the cleaned name is
empty after all stripping; a line whose before-comma text is only
whitespace (in particular, empty) is discarded, but punctuation is not
stripped by the cleaning, so a punctuation-only line survives and produces
a record (see the counterexample). -/
theorem spec_C9 :
    (∀ raw, normalize_ingredient_line raw = none ↔ nameCleanOf raw = []) ∧
    (∀ raw, (takeUntilComma (pyStrip raw)).all isWs = true →
      normalize_ingredient_line raw = none) := by
  refine ⟨normalize_none_iff, ?_⟩
  intro raw h
  have hb : beforeCommaOf raw = [] := pyStrip_all_ws h
  rw [normalize_ingredient_line, if_pos hb]

/-- Witness for C9: the all-whitespace line ` ` is discarded, and the
discard condition agrees with the empty cleaned name on it. -/
theorem spec_C9_witness :
    (takeUntilComma (pyStrip (" ".data))).all isWs = true ∧
    normalize_ingredient_line (" ".data) = none ∧
    (normalize_ingredient_line (" ".data) = none ↔ nameCleanOf (" ".data) = []) :=
  ⟨by decide, spec_C9.2 (" ".data) (by decide), spec_C9.1 (" ".data)⟩

/-- Counterexample to C9 as stated: the line `.` is punctuation-only before
the comma, yet it is not discarded — the dot survives cleaning and becomes
the record's name. -/
theorem spec_C9_counterexample :
    (beforeCommaOf (".".data)).all (fun c => !c.isAlphanum) = true ∧
    (normalize_ingredient_line (".".data)).map (fun i => i.name) = some "." := by
  decide

theorem takeUntilComma_eq_self {l : List Char} (h : ∀ c ∈ l, c ≠ ',') :
    takeUntilComma l = l := by
  induction l with
  | nil => rfl
  | cons c r ih =>
    have hr := ih (fun x hx => h x (by simp [hx]))
    rw [takeUntilComma] at hr ⊢
    rw [List.takeWhile_cons_of_pos (by simpa using h c (by simp)), hr]

theorem dropWhile_cons_not_ws {c : Char} {r : List Char} (h : isWs c = false) :
    (c :: r).dropWhile isWs = c :: r :=
  List.dropWhile_cons_of_neg (by simp [h])

theorem pyStrip_eq_self {l : List Char} (h1 : ∀ c, l.head? = some c → isWs c = false)
    (h2 : ∀ c, l.reverse.head? = some c → isWs c = false) :
    pyStrip l = l := by
  rw [pyStrip]
  have e1 : l.dropWhile isWs = l := by
    cases l with
    | nil => rfl
    | cons c r => exact dropWhile_cons_not_ws (h1 c rfl)
  rw [e1]
  have e2 : l.reverse.dropWhile isWs = l.reverse := by
    cases hr : l.reverse with
    | nil => rfl
    | cons c r => exact dropWhile_cons_not_ws (h2 c (by rw [hr]; rfl))
  rw [e2, List.reverse_reverse]

theorem word_line_chars {X U : List Char} (hXa : ∀ c ∈ X, c.isAlpha = true)
    (hUa : ∀ c ∈ U, c.isAlpha = true) :
    ∀ c ∈ X ++ ' ' :: U, c.isAlpha = true ∨ c = ' ' := by
  intro c hc
  rcases List.mem_append.mp hc with hx | hu
  · exact Or.inl (hXa c hx)
  · rcases List.mem_cons.mp hu with rfl | hu2
    · exact Or.inr rfl
    · exact Or.inl (hUa c hu2)

theorem beforeComma_word_line {X U : List Char} (hX : X ≠ []) (hU : U ≠ [])
    (hXa : ∀ c ∈ X, c.isAlpha = true) (hUa : ∀ c ∈ U, c.isAlpha = true) :
    beforeCommaOf (X ++ ' ' :: U) = X ++ ' ' :: U := by
  obtain ⟨x, X', rfl⟩ := List.exists_cons_of_ne_nil hX
  have hstrip : pyStrip ((x :: X') ++ ' ' :: U) = (x :: X') ++ ' ' :: U := by
    refine pyStrip_eq_self ?_ ?_
    · intro c hc
      rw [List.cons_append, List.head?_cons, Option.some.injEq] at hc
      exact alpha_not_ws (hc ▸ hXa x (by simp))
    · intro c hc
      rw [List.head?_reverse] at hc
      obtain ⟨V, b, rfl⟩ := (List.eq_nil_or_concat' U).resolve_left hU
      have hlast : ((x :: X') ++ ' ' :: (V ++ [b])).getLast? = some b := by
        rw [show (x :: X') ++ ' ' :: (V ++ [b]) = ((x :: X') ++ ' ' :: V) ++ [b] by simp]
        exact List.getLast?_concat _
      rw [hlast, Option.some.injEq] at hc
      exact alpha_not_ws (hc ▸ hUa b (by simp))
  have hcomma : takeUntilComma ((x :: X') ++ ' ' :: U) = (x :: X') ++ ' ' :: U := by
    refine takeUntilComma_eq_self ?_
    intro c hc
    rcases word_line_chars hXa hUa c hc with ha | rfl
    · exact alpha_ne ha (by decide)
    · decide
  rw [beforeCommaOf, hstrip, hcomma, hstrip]

theorem splitWsAux_word {w : List Char} (hw : ∀ c ∈ w, isWs c = false) :
    ∀ (r acc : List Char), splitWsAux (w ++ r) acc = splitWsAux r (w.reverse ++ acc) := by
  induction w with
  | nil => intro r acc; simp
  | cons c w' ih =>
    intro r acc
    rw [List.cons_append, splitWsAux, if_neg (by simp [hw c (by simp)])]
    rw [ih (fun x hx => hw x (by simp [hx])) r (c :: acc)]
    simp

theorem reverse_isEmpty_false {X : List Char} (hX : X ≠ []) : X.reverse.isEmpty = false := by
  cases hr : X.reverse with
  | nil => exact absurd (List.reverse_eq_nil_iff.mp hr) hX
  | cons a b => rfl

theorem splitWsAux_nil_word {U : List Char} (hU : U ≠ [])
    (hUw : ∀ c ∈ U, isWs c = false) : splitWsAux U [] = [U] := by
  have h := splitWsAux_word hUw [] []
  rw [List.append_nil, List.append_nil] at h
  rw [h, splitWsAux, if_neg (by simp [reverse_isEmpty_false hU]), List.reverse_reverse]

theorem pySplitWs_two_words {X U : List Char} (hX : X ≠ []) (hU : U ≠ [])
    (hXw : ∀ c ∈ X, isWs c = false) (hUw : ∀ c ∈ U, isWs c = false) :
    pySplitWs (X ++ ' ' :: U) = [X, U] := by
  rw [pySplitWs, splitWsAux_word hXw, List.append_nil, splitWsAux, if_pos (by decide)]
  rw [if_neg (by simp [reverse_isEmpty_false hX]), List.reverse_reverse,
    splitWsAux_nil_word hU hUw]

theorem parenAt_cons_ne {c : Char} {r : List Char} (h : c ≠ '(') :
    parenAt (c :: r) = none := by
  rw [parenAt, if_neg h]

theorem any_paren_none {l : List Char} (h : ∀ c ∈ l, c ≠ '(') : any_paren l = none := by
  induction l with
  | nil => rfl
  | cons c r ih =>
    rw [any_paren, parenAt_cons_ne (h c (by simp)), ih (fun x hx => h x (by simp [hx]))]

theorem parenStep_word_line {X U : List Char} (hXa : ∀ c ∈ X, c.isAlpha = true)
    (hUa : ∀ c ∈ U, c.isAlpha = true) (hX : X ≠ []) :
    parenStep (X ++ ' ' :: U) = (none, none, X ++ ' ' :: U) := by
  obtain ⟨x, X', rfl⟩ := List.exists_cons_of_ne_nil hX
  have hnp : ∀ c ∈ (x :: X') ++ ' ' :: U, c ≠ '(' := by
    intro c hc
    rcases word_line_chars hXa hUa c hc with ha | rfl
    · exact alpha_ne ha (by decide)
    · decide
  have hlead : lead_paren ((x :: X') ++ ' ' :: U) = none := by
    rw [lead_paren, List.cons_append,
      List.dropWhile_cons_of_neg (by simp [alpha_not_leadJunk (hXa x (by simp))])]
    exact parenAt_cons_ne (hnp x (by simp))
  have hany : any_paren ((x :: X') ++ ' ' :: U) = none := any_paren_none hnp
  rw [parenStep, hlead, hany]

theorem matchMixNumeric_not_digit {c : Char} {r : List Char} (h : c.isDigit = false) :
    matchMixNumeric (c :: r) = none := by
  rw [matchMixNumeric]
  simp [List.takeWhile_cons_of_neg, h]

theorem matchMixVulgar_not_digit {c : Char} {r : List Char} (h : c.isDigit = false) :
    matchMixVulgar (c :: r) = none := by
  rw [matchMixVulgar]
  simp [List.takeWhile_cons_of_neg, h]

theorem matchSingle_word {c : Char} {r : List Char} (hg : isGlyph c = false)
    (hd : c.isDigit = false) : matchSingle (c :: r) = none := by
  rw [matchSingle]
  simp [hg, List.takeWhile_cons_of_neg, hd]

theorem qtyStep_word {c : Char} {r : List Char} (ha : c.isAlpha = true) :
    qtyStep (c :: r) = (none, c :: r) := by
  rw [qtyStep, matchMixNumeric_not_digit (alpha_not_digit ha),
    matchMixVulgar_not_digit (alpha_not_digit ha),
    matchSingle_word (alpha_not_glyph ha) (alpha_not_digit ha)]

theorem parse_quantity_two_words {X U : List Char} {u : String}
    (hX : X ≠ []) (hU : U ≠ [])
    (hXa : ∀ c ∈ X, c.isAlpha = true) (hUa : ∀ c ∈ U, c.isAlpha = true)
    (h0 : UNIT_SYNONYMS (String.mk (toLowerList X)) = none)
    (h1 : UNIT_SYNONYMS (String.mk (toLowerList U)) = some u) :
    parse_quantity (X ++ ' ' :: U) =
      { qty := none, unit := some u, rem := [], pqty := none, punit := none } := by
  have hs0 : pyStrip (takeUntilComma (pyStrip (X ++ ' ' :: U))) = X ++ ' ' :: U := by
    have h := beforeComma_word_line hX hU hXa hUa
    rw [beforeCommaOf] at h
    exact h
  have hsplit : pySplitWs (X ++ ' ' :: U) = [X, U] :=
    pySplitWs_two_words hX hU (fun c hc => alpha_not_ws (hXa c hc))
      (fun c hc => alpha_not_ws (hUa c hc))
  have hunit : unitStep (X ++ ' ' :: U) = (some u, []) := by
    simp only [unitStep, hsplit, h0, h1]
    rfl
  obtain ⟨x, X', hx⟩ := List.exists_cons_of_ne_nil hX
  have hqty : qtyStep (X ++ ' ' :: U) = (none, X ++ ' ' :: U) := by
    rw [hx, List.cons_append]
    exact qtyStep_word (hXa x (by simp [hx]))
  have hparen : parenStep (X ++ ' ' :: U) = (none, none, X ++ ' ' :: U) :=
    parenStep_word_line hXa hUa hX
  rw [parse_quantity, hs0, hparen]
  simp only [hqty, hunit]
  rfl

/-- C10: in the quantity parser's unit step, when the first word is not a
unit synonym but the second word is, both words are consumed and the
remainder is the join of the words after them; hence any two-word line of
plain alphabetic words `X U` with `X` not a unit synonym and `U` one parses
to an empty remainder, gets an empty cleaned name, and is discarded. -/
theorem spec_C10 :
    (∀ (s p0 p1 : List Char) (rest : List (List Char)) (u : String),
      pySplitWs s = p0 :: p1 :: rest →
      UNIT_SYNONYMS (String.mk (toLowerList p0)) = none →
      UNIT_SYNONYMS (String.mk (toLowerList p1)) = some u →
      unitStep s = (some u, joinWs rest)) ∧
    (∀ (X U : List Char) (u : String), X ≠ [] → U ≠ [] →
      (∀ c ∈ X, c.isAlpha = true) → (∀ c ∈ U, c.isAlpha = true) →
      UNIT_SYNONYMS (String.mk (toLowerList X)) = none →
      UNIT_SYNONYMS (String.mk (toLowerList U)) = some u →
      (parsedOf (X ++ ' ' :: U)).rem = [] ∧
      normalize_ingredient_line (X ++ ' ' :: U) = none) := by
  constructor
  · intro s p0 p1 rest u hsplit h0 h1
    simp only [unitStep, hsplit, h0, h1]
  · intro X U u hX hU hXa hUa h0 h1
    have hb : beforeCommaOf (X ++ ' ' :: U) = X ++ ' ' :: U :=
      beforeComma_word_line hX hU hXa hUa
    have hp : parsedOf (X ++ ' ' :: U) =
        { qty := none, unit := some u, rem := [], pqty := none, punit := none } := by
      rw [parsedOf, hb]
      exact parse_quantity_two_words hX hU hXa hUa h0 h1
    have hname : nameCleanOf (X ++ ' ' :: U) = [] := by
      rw [nameCleanOf, canonOf, hp]
      show pyStrip (toLowerList (canonicalize_name []).cleaned) = []
      decide
    exact ⟨by rw [hp], (normalize_none_iff _).mpr hname⟩

/-- Witness for C10 at the two-word line `chicken slices` (`chicken` is not
a unit synonym, `slices` maps to `each`). -/
theorem spec_C10_witness :
    unitStep ("chicken slices".data) = (some "each", joinWs []) ∧
    (parsedOf ("chicken".data ++ ' ' :: "slices".data)).rem = [] ∧
    normalize_ingredient_line ("chicken".data ++ ' ' :: "slices".data) = none := by
  have h2 := spec_C10.2 ("chicken".data) ("slices".data) "each" (by decide) (by decide)
    (by decide) (by decide) (by decide) (by decide)
  exact ⟨spec_C10.1 ("chicken slices".data) ("chicken".data) ("slices".data) [] "each"
    (by decide) (by decide) (by decide), h2.1, h2.2⟩
